import Mathlib

/-!
Verification of the indicator-computation and signal-aggregation engine of the
S&P 500 demo repository (files `streamlit_sp500_demo.py` and `app.py`).

The numeric code operates on pandas Series of floats.  We embed series as
`List ℚ` (plain values) or `List (Option ℚ)` (`none` standing for a pandas
`NaN`), and embed each pandas library call by its documented semantics
(rolling means with `min_periods = window`, adjusted exponential weighting,
elementwise comparisons on which `NaN` compares false).
-/

namespace SP500

/-- Decay factor for a pandas `ewm(span=s)` call: `alpha = 2/(span+1)`
(see `calculate_macd` in `streamlit_sp500_demo.py`). -/
def alpha (span : ℕ) : ℚ := 2 / (span + 1)

/-- Incremental computation of the adjusted (bias corrected) exponentially
weighted mean, exactly as pandas computes `Series.ewm(span).mean()` with the
default `adjust=True`: with weight `w = 1 - alpha`, the numerator and
denominator satisfy `num_t = x_t + w·num_{t-1}` and `den_t = 1 + w·den_{t-1}`
and the output at `t` is `num_t / den_t`. -/
def ewmGo (w : ℚ) : ℚ → ℚ → List ℚ → List ℚ
  | _, _, [] => []
  | num, den, x :: xs =>
    let num2 := x + w * num
    let den2 := 1 + w * den
    num2 / den2 :: ewmGo w num2 den2 xs

/-- `Series.ewm(span=span).mean()` with pandas' default `adjust=True`,
as used by `calculate_macd` in `streamlit_sp500_demo.py`. -/
def ewm (xs : List ℚ) (span : ℕ) : List ℚ :=
  ewmGo (1 - alpha span) 0 0 xs

theorem ewmGo_length (w : ℚ) : ∀ (num den : ℚ) (xs : List ℚ),
    (ewmGo w num den xs).length = xs.length := by
  intro num den xs
  induction xs generalizing num den with
  | nil => rfl
  | cons x xs ih => simp [ewmGo, ih]

theorem ewm_length (xs : List ℚ) (span : ℕ) : (ewm xs span).length = xs.length :=
  ewmGo_length _ 0 0 xs

/-- Closed form of the incremental adjusted EWM: the value at position `t`
is a ratio of geometrically weighted sums, the initial accumulators entering
with weight `w^(t+1)`. -/
theorem ewmGo_getD (w : ℚ) : ∀ (xs : List ℚ) (num den : ℚ) (t : ℕ),
    t < xs.length →
    (ewmGo w num den xs).getD t 0 =
      ((∑ i in Finset.range (t + 1), w ^ i * xs.getD (t - i) 0) + w ^ (t + 1) * num) /
      ((∑ i in Finset.range (t + 1), w ^ i) + w ^ (t + 1) * den) := by
  intro xs
  induction xs with
  | nil => intro num den t ht; simp at ht
  | cons x rest ih =>
    intro num den t ht
    cases t with
    | zero =>
      simp [ewmGo, Finset.sum_range_one]
    | succ t =>
      have ht2 : t < rest.length := by simpa using ht
      have step := ih (x + w * num) (1 + w * den) t ht2
      have hcongr : ∀ i ∈ Finset.range (t + 1),
          w ^ i * (x :: rest).getD (t + 1 - i) 0 = w ^ i * rest.getD (t - i) 0 := by
        intro i hi
        have hle : i ≤ t := Nat.lt_succ_iff.mp (Finset.mem_range.mp hi)
        have hidx : t + 1 - i = (t - i) + 1 := by omega
        rw [hidx, List.getD_cons_succ]
      have hsplit : (∑ i in Finset.range (t + 1 + 1), w ^ i * (x :: rest).getD (t + 1 - i) 0) =
          (∑ i in Finset.range (t + 1), w ^ i * rest.getD (t - i) 0) + w ^ (t + 1) * x := by
        rw [Finset.sum_range_succ]
        rw [Finset.sum_congr rfl hcongr]
        have hidx : t + 1 - (t + 1) = 0 := by omega
        rw [hidx, List.getD_cons_zero]
      have hnum : (∑ i in Finset.range (t + 1), w ^ i * rest.getD (t - i) 0) +
          w ^ (t + 1) * (x + w * num) =
          (∑ i in Finset.range (t + 1 + 1), w ^ i * (x :: rest).getD (t + 1 - i) 0) +
          w ^ (t + 1 + 1) * num := by
        rw [hsplit]
        ring
      have hden : (∑ i in Finset.range (t + 1), w ^ i) + w ^ (t + 1) * (1 + w * den) =
          (∑ i in Finset.range (t + 1 + 1), w ^ i) + w ^ (t + 1 + 1) * den := by
        rw [Finset.sum_range_succ (fun i => w ^ i) (t + 1)]
        ring
      calc (ewmGo w num den (x :: rest)).getD (t + 1) 0
          = (ewmGo w (x + w * num) (1 + w * den) rest).getD t 0 := by
            simp [ewmGo]
        _ = _ := by rw [step, hnum, hden]

theorem ewm_getD (xs : List ℚ) (span : ℕ) (t : ℕ) (ht : t < xs.length) :
    (ewm xs span).getD t 0 =
      (∑ i in Finset.range (t + 1), (1 - alpha span) ^ i * xs.getD (t - i) 0) /
      (∑ i in Finset.range (t + 1), (1 - alpha span) ^ i) := by
  have h := ewmGo_getD (1 - alpha span) xs 0 0 t ht
  simpa [ewm] using h

/-- With a positive span the weight `1 - alpha` is nonnegative, so the
normalizing denominator of the adjusted EWM is at least `1`. -/
theorem ewm_den_pos (span : ℕ) (hspan : 0 < span) (t : ℕ) :
    0 < ∑ i in Finset.range (t + 1), (1 - alpha span) ^ i := by
  have hw : 0 ≤ 1 - alpha span := by
    have h1 : (0 : ℚ) < (span : ℚ) + 1 := by positivity
    have h2 : alpha span ≤ 1 := by
      rw [alpha, div_le_one h1]
      have : (1 : ℚ) ≤ (span : ℚ) := by exact_mod_cast hspan
      linarith
    linarith
  have hterm : ∀ i ∈ Finset.range (t + 1), 0 ≤ (1 - alpha span) ^ i := by
    intro i _
    positivity
  have h0 : (0 : ℕ) ∈ Finset.range (t + 1) := by simp
  refine Finset.sum_pos' hterm ⟨0, h0, by norm_num⟩

example : ewm [10, 11, 12, 13, 14] 3 = [10, 32/3, 80/7, 184/15, 408/31] := by
  norm_num [ewm, ewmGo, alpha]

/-- C1: for every non-empty price series and positive span, the `ewm` used by
`calculate_macd` has one (defined) output per input index from index 0 on,
its normalizing denominator is positive, and at position `t` it equals the
bias-corrected weighted mean `(Σ_{i=0..t} (1-alpha)^i · x_{t-i}) / (Σ_{i=0..t}
(1-alpha)^i)` with `alpha = 2/(span+1)`; in particular on the closes
`[10, 11, 12, 13, 14]` with span 3 the output at index 0 is exactly 10 and at
index 1 is `(10·0.5 + 11·1)/(0.5 + 1)`, which differs from the
recursively-seeded EMA value `0.5·11 + 0.5·10`. -/
theorem C1_ewm_adjusted (xs : List ℚ) (span : ℕ) (hspan : 0 < span) (t : ℕ)
    (ht : t < xs.length) :
    (ewm xs span).length = xs.length ∧
    0 < ∑ i in Finset.range (t + 1), (1 - alpha span) ^ i ∧
    (ewm xs span).getD t 0 =
      (∑ i in Finset.range (t + 1), (1 - alpha span) ^ i * xs.getD (t - i) 0) /
      (∑ i in Finset.range (t + 1), (1 - alpha span) ^ i) ∧
    (ewm [10, 11, 12, 13, 14] 3).getD 0 0 = 10 ∧
    (ewm [10, 11, 12, 13, 14] 3).getD 1 0 = (10 * (1 / 2) + 11 * 1) / (1 / 2 + 1) ∧
    (ewm [10, 11, 12, 13, 14] 3).getD 1 0 ≠ (1 / 2) * 11 + (1 / 2) * 10 := by
  refine ⟨ewm_length xs span, ewm_den_pos span hspan t, ewm_getD xs span t ht, ?_, ?_, ?_⟩
  · norm_num [ewm, ewmGo, alpha]
  · norm_num [ewm, ewmGo, alpha]
  · norm_num [ewm, ewmGo, alpha]

theorem C1_ewm_adjusted_witness :
    (ewm [10, 11, 12, 13, 14] 3).getD 0 0 = 10 ∧
    (ewm [10, 11, 12, 13, 14] 3).getD 1 0 = (10 * (1 / 2) + 11 * 1) / (1 / 2 + 1) := by
  have h := C1_ewm_adjusted [10, 11, 12, 13, 14] 3 (by norm_num) 1 (by norm_num)
  exact ⟨h.2.2.2.1, h.2.2.2.2.1⟩

/-- Sequence a list of optional values: `some` of the list of values when no
entry is `none` (no `NaN` in a rolling window), otherwise `none`. -/
def seqO : List (Option ℚ) → Option (List ℚ)
  | [] => some []
  | none :: _ => none
  | some x :: rest => (seqO rest).map (x :: ·)

theorem seqO_map_some (l : List ℚ) : seqO (l.map some) = some l := by
  induction l with
  | nil => rfl
  | cons x rest ih => simp [seqO, ih]

/-- `Series.rolling(window=w).mean()` on a series that may contain `NaN`:
with pandas' default `min_periods = w`, the output at index `i` is the mean
of the trailing window of `w` observations when `i ≥ w - 1` and the window
holds no `NaN`, and `NaN` otherwise. -/
def rollingMeanO (xs : List (Option ℚ)) (w : ℕ) : List (Option ℚ) :=
  (List.range xs.length).map fun i =>
    if w ≤ i + 1 then
      match seqO ((xs.drop (i + 1 - w)).take w) with
      | some vs => some (vs.sum / w)
      | none => none
    else none

/-- `Series.rolling(window=w).mean()` on a `NaN`-free series, as applied to
the `Close` column (`rolling(window=50).mean()` etc. in
`streamlit_sp500_demo.py` and `rolling(window=20).mean()` in `app.py`). -/
def rollingMean (xs : List ℚ) (w : ℕ) : List (Option ℚ) :=
  rollingMeanO (xs.map some) w

theorem rollingMeanO_length (xs : List (Option ℚ)) (w : ℕ) :
    (rollingMeanO xs w).length = xs.length := by
  simp [rollingMeanO]

theorem rollingMean_length (xs : List ℚ) (w : ℕ) :
    (rollingMean xs w).length = xs.length := by
  simp [rollingMean, rollingMeanO_length]

theorem range_map_getD {α : Type} (n : ℕ) (f : ℕ → α) (d : α) (i : ℕ) (hi : i < n) :
    ((List.range n).map f).getD i d = f i := by
  rw [List.getD_eq_getElem?_getD, List.getElem?_map, List.getElem?_range hi]
  rfl

theorem rollingMeanO_getD (xs : List (Option ℚ)) (w i : ℕ) (hi : i < xs.length) :
    (rollingMeanO xs w).getD i none =
      if w ≤ i + 1 then
        match seqO ((xs.drop (i + 1 - w)).take w) with
        | some vs => some (vs.sum / w)
        | none => none
      else none := by
  have h := range_map_getD (α := Option ℚ) xs.length
    (fun i => if w ≤ i + 1 then
        match seqO ((xs.drop (i + 1 - w)).take w) with
        | some vs => some (vs.sum / w)
        | none => none
      else none) none i hi
  simpa [rollingMeanO] using h

theorem list_sum_getD (l : List ℚ) : l.sum = ∑ j in Finset.range l.length, l.getD j 0 := by
  induction l with
  | nil => simp
  | cons x rest ih =>
    rw [List.sum_cons, ih, List.length_cons, Finset.sum_range_succ']
    simp [add_comm]

/-- The sum of the length-`n` slice of `xs` starting at `a`, as a sum of
positional reads. -/
theorem sum_take_drop (xs : List ℚ) (a n : ℕ) (h : a + n ≤ xs.length) :
    ((xs.drop a).take n).sum = ∑ j in Finset.range n, xs.getD (a + j) 0 := by
  have hlen : ((xs.drop a).take n).length = n := by
    rw [List.length_take, List.length_drop]
    omega
  rw [list_sum_getD, hlen]
  refine Finset.sum_congr rfl ?_
  intro j hj
  have hjn : j < n := Finset.mem_range.mp hj
  rw [List.getD_eq_getElem?_getD, List.getElem?_take_of_lt hjn, List.getElem?_drop,
    List.getD_eq_getElem?_getD]

/-- Value of the `NaN`-free rolling mean inside the valid range: the window
`[i+1-w, i]` averaged. -/
theorem rollingMean_getD_of_le (xs : List ℚ) (w i : ℕ) (hi : i < xs.length)
    (hwin : w ≤ i + 1) :
    (rollingMean xs w).getD i none =
      some ((∑ j in Finset.range w, xs.getD (i + 1 - w + j) 0) / w) := by
  have hi2 : i < (xs.map some).length := by simpa using hi
  rw [rollingMean, rollingMeanO_getD _ _ _ hi2, if_pos hwin]
  have hdt : ((xs.map some).drop (i + 1 - w)).take w = ((xs.drop (i + 1 - w)).take w).map some := by
    rw [← List.map_drop, ← List.map_take]
  rw [hdt, seqO_map_some]
  have hsum : ((xs.drop (i + 1 - w)).take w).sum =
      ∑ j in Finset.range w, xs.getD (i + 1 - w + j) 0 := by
    refine sum_take_drop xs (i + 1 - w) w ?_
    omega
  simp [hsum]

theorem rollingMean_getD_of_lt (xs : List ℚ) (w i : ℕ) (hi : i < xs.length)
    (hwin : i + 1 < w) :
    (rollingMean xs w).getD i none = none := by
  have hi2 : i < (xs.map some).length := by simpa using hi
  rw [rollingMean, rollingMeanO_getD _ _ _ hi2, if_neg (by omega)]

/-- C8: `rollingMean(series, window)` (a `rolling(window).mean()` call on the
close column) has one output per input index, is defined at index `i` iff
`i ≥ window − 1`, equals the arithmetic mean of `close[i−window+1 .. i]`
there, and is entirely undefined when the window exceeds the series
length. -/
theorem C8_rollingMean_window (xs : List ℚ) (w : ℕ) (hw : 0 < w) (i : ℕ)
    (hi : i < xs.length) :
    (rollingMean xs w).length = xs.length ∧
    (w ≤ i + 1 → (rollingMean xs w).getD i none =
      some ((∑ j in Finset.range w, xs.getD (i + 1 - w + j) 0) / w)) ∧
    (i + 1 < w → (rollingMean xs w).getD i none = none) ∧
    (xs.length < w → (rollingMean xs w).getD i none = none) := by
  refine ⟨rollingMean_length xs w, ?_, ?_, ?_⟩
  · intro hwin
    exact rollingMean_getD_of_le xs w i hi hwin
  · intro hwin
    exact rollingMean_getD_of_lt xs w i hi hwin
  · intro hlen
    exact rollingMean_getD_of_lt xs w i hi (by omega)

theorem C8_rollingMean_window_witness :
    (rollingMean [1, 2, 4] 2).getD 2 none = some 3 ∧
    (rollingMean [1, 2, 4] 2).getD 0 none = none := by
  constructor
  · have h := (C8_rollingMean_window [1, 2, 4] 2 (by norm_num) 2 (by norm_num)).2.1
      (by norm_num)
    rw [h]
    norm_num [Finset.sum_range_succ]
  · exact (C8_rollingMean_window [1, 2, 4] 2 (by norm_num) 0 (by norm_num)).2.2.1
      (by norm_num)

/-- `Series.diff()` as used in `calculate_rsi`: `delta_t = close_t −
close_{t−1}`, `NaN` at `t = 0`. -/
def diff (xs : List ℚ) : List (Option ℚ) :=
  (List.range xs.length).map fun t =>
    if t = 0 then none else some (xs.getD t 0 - xs.getD (t - 1) 0)

/-- `delta.where(delta > 0, 0)` applied entrywise: keep `delta` where it is
positive, else `0`. A `NaN` entry compares false and is replaced by `0`. -/
def gainFill (d : Option ℚ) : ℚ :=
  match d with
  | none => 0
  | some v => if 0 < v then v else 0

/-- `-(delta.where(delta < 0, 0))` applied entrywise: `−delta` where `delta`
is negative, else `0`. A `NaN` entry compares false and is replaced by `0`. -/
def lossFill (d : Option ℚ) : ℚ :=
  match d with
  | none => 0
  | some v => if v < 0 then -v else 0

/-- One point of `rs = gain/loss; rsi = 100 − 100/(1 + rs)` under IEEE float
semantics: `g/0 = +∞` for `g ≠ 0` makes the RSI exactly `100`, and `0/0` is
`NaN` (undefined). -/
def rsiStep (g l : ℚ) : Option ℚ :=
  if l = 0 then (if g = 0 then none else some 100)
  else some (100 - 100 / (1 + g / l))

/-- Elementwise combination of the rolling gain and loss averages: `NaN` in
either operand propagates. -/
def combineRS (g l : Option ℚ) : Option ℚ :=
  match g, l with
  | some g, some l => rsiStep g l
  | _, _ => none

/-- `calculate_rsi` from `streamlit_sp500_demo.py`. -/
def calculate_rsi (closes : List ℚ) (period : ℕ) : List (Option ℚ) :=
  let delta := diff closes
  let gain := rollingMean (delta.map gainFill) period
  let loss := rollingMean (delta.map lossFill) period
  List.zipWith combineRS gain loss

/-- The zero-filled gain sequence entering the rolling mean. -/
def gainSeq (closes : List ℚ) : List ℚ := (diff closes).map gainFill

/-- The zero-filled loss sequence entering the rolling mean. -/
def lossSeq (closes : List ℚ) : List ℚ := (diff closes).map lossFill

/-- The rolling gain average at index `i` (window `[i+1-p, i]`). -/
def avgGain (closes : List ℚ) (p i : ℕ) : ℚ :=
  (∑ j in Finset.range p, (gainSeq closes).getD (i + 1 - p + j) 0) / p

/-- The rolling loss average at index `i` (window `[i+1-p, i]`). -/
def avgLoss (closes : List ℚ) (p i : ℕ) : ℚ :=
  (∑ j in Finset.range p, (lossSeq closes).getD (i + 1 - p + j) 0) / p

theorem diff_length (closes : List ℚ) : (diff closes).length = closes.length := by
  simp [diff]

theorem gainSeq_length (closes : List ℚ) : (gainSeq closes).length = closes.length := by
  simp [gainSeq, diff_length]

theorem lossSeq_length (closes : List ℚ) : (lossSeq closes).length = closes.length := by
  simp [lossSeq, diff_length]

theorem gainSeq_getD (closes : List ℚ) (t : ℕ) (ht : t < closes.length) :
    (gainSeq closes).getD t 0 =
      if t = 0 then 0 else max (closes.getD t 0 - closes.getD (t - 1) 0) 0 := by
  have h : gainSeq closes = (List.range closes.length).map
      (fun t => gainFill (if t = 0 then none
        else some (closes.getD t 0 - closes.getD (t - 1) 0))) := by
    simp [gainSeq, diff, List.map_map]
  rw [h, range_map_getD closes.length _ 0 t ht]
  by_cases h0 : t = 0
  · simp [h0, gainFill]
  · simp only [h0, if_false, gainFill]
    rcases le_or_lt (closes.getD t 0 - closes.getD (t - 1) 0) 0 with hle | hlt
    · rw [if_neg (by linarith), max_eq_right hle]
    · rw [if_pos hlt, max_eq_left (le_of_lt hlt)]

theorem lossSeq_getD (closes : List ℚ) (t : ℕ) (ht : t < closes.length) :
    (lossSeq closes).getD t 0 =
      if t = 0 then 0 else max (-(closes.getD t 0 - closes.getD (t - 1) 0)) 0 := by
  have h : lossSeq closes = (List.range closes.length).map
      (fun t => lossFill (if t = 0 then none
        else some (closes.getD t 0 - closes.getD (t - 1) 0))) := by
    simp [lossSeq, diff, List.map_map]
  rw [h, range_map_getD closes.length _ 0 t ht]
  by_cases h0 : t = 0
  · simp [h0, lossFill]
  · simp only [h0, if_false, lossFill]
    rcases le_or_lt 0 (closes.getD t 0 - closes.getD (t - 1) 0) with hle | hlt
    · rw [if_neg (by linarith), max_eq_right (by linarith)]
    · rw [if_pos hlt, max_eq_left (by linarith)]

/-- Positional characterization of `calculate_rsi`: undefined strictly below
index `period − 1`, and from `period − 1` on the `rsiStep` of the rolling
gain/loss averages over the zero-filled sequences. -/
theorem rsi_getD (closes : List ℚ) (p i : ℕ) (hp : 0 < p) (hi : i < closes.length) :
    (calculate_rsi closes p).getD i none =
      if p ≤ i + 1 then rsiStep (avgGain closes p i) (avgLoss closes p i) else none := by
  have hg : i < (gainSeq closes).length := by rw [gainSeq_length]; exact hi
  have hl : i < (lossSeq closes).length := by rw [lossSeq_length]; exact hi
  have hzip : (calculate_rsi closes p).getD i none =
      combineRS ((rollingMean (gainSeq closes) p).getD i none)
        ((rollingMean (lossSeq closes) p).getD i none) := by
    rw [List.getD_eq_getElem?_getD]
    rw [calculate_rsi]
    rw [List.getElem?_zipWith]
    have hgi : (rollingMean ((diff closes).map gainFill) p)[i]? =
        some ((rollingMean (gainSeq closes) p).getD i none) := by
      rw [List.getElem?_eq_getElem (by rw [rollingMean_length]; exact hg)]
      rw [List.getD_eq_getElem?_getD, List.getElem?_eq_getElem (by rw [rollingMean_length]; exact hg)]
      rfl
    have hli : (rollingMean ((diff closes).map lossFill) p)[i]? =
        some ((rollingMean (lossSeq closes) p).getD i none) := by
      rw [List.getElem?_eq_getElem (by rw [rollingMean_length]; exact hl)]
      rw [List.getD_eq_getElem?_getD, List.getElem?_eq_getElem (by rw [rollingMean_length]; exact hl)]
      rfl
    rw [gainSeq] at hgi
    rw [lossSeq] at hli
    rw [hgi, hli]
    rfl
  rw [hzip]
  by_cases hwin : p ≤ i + 1
  · rw [rollingMean_getD_of_le _ _ _ hg hwin, rollingMean_getD_of_le _ _ _ hl hwin,
      if_pos hwin]
    rfl
  · rw [rollingMean_getD_of_lt _ _ _ hg (by omega), if_neg hwin]
    rfl

/-- C4 counterexample: the claim asserts the RSI output is undefined at every
index `i < p`, but on the close sequence `[1, 2, 3]` with period 2 the output
at index `1 = p − 1` is the defined value `100`: `delta.where(delta > 0, 0)`
replaces the `NaN` delta at `t = 0` by `0` instead of propagating it, so the
rolling means are already defined at index `p − 1`. -/
theorem C4_rsi_warmup_counterexample :
    (calculate_rsi [1, 2, 3] 2).getD 1 none = some 100 ∧
    (calculate_rsi [1, 2, 3] 2).getD 1 none ≠ none := by
  have h : (calculate_rsi [1, 2, 3] 2).getD 1 none = some 100 := by
    norm_num [calculate_rsi, rollingMean, rollingMeanO, diff, seqO, rsiStep, combineRS,
      gainFill, lossFill, List.range_succ, List.getD_cons_succ, List.getD_cons_zero]
  refine ⟨h, ?_⟩
  rw [h]
  simp

/-- C4 (amended): `rsi(series, p)` is built from `delta_t = close_t −
close_{t−1}` (undefined at `t = 0`), but the `where`-fill replaces the
undefined delta by `gain_0 = loss_0 = 0` instead of propagating it; for
`t ≥ 1` the gain is `max(delta_t, 0)` and the loss `max(−delta_t, 0)`; the
simple rolling means over window `p` are therefore already defined at index
`p − 1`, so the RSI output is undefined at every index `i < p − 1` and from
`i = p − 1` on equals `100 − 100/(1 + avgGain/avgLoss)` over the zero-filled
gain/loss sequences (undefined where `avgGain = avgLoss = 0`). -/
theorem C4_rsi_pipeline_amended (closes : List ℚ) (p i : ℕ) (hp : 0 < p)
    (hi : i < closes.length) :
    (i + 1 < p → (calculate_rsi closes p).getD i none = none) ∧
    (p ≤ i + 1 → (calculate_rsi closes p).getD i none =
      rsiStep (avgGain closes p i) (avgLoss closes p i)) ∧
    (gainSeq closes).getD 0 0 = 0 ∧
    (lossSeq closes).getD 0 0 = 0 ∧
    (∀ t, 0 < t → t < closes.length →
      (gainSeq closes).getD t 0 = max (closes.getD t 0 - closes.getD (t - 1) 0) 0) ∧
    (∀ t, 0 < t → t < closes.length →
      (lossSeq closes).getD t 0 = max (-(closes.getD t 0 - closes.getD (t - 1) 0)) 0) := by
  have h := rsi_getD closes p i hp hi
  refine ⟨?_, ?_, ?_, ?_, ?_, ?_⟩
  · intro hwin
    rw [h, if_neg (by omega)]
  · intro hwin
    rw [h, if_pos hwin]
  · rcases List.eq_nil_or_concat closes with hnil | _
    · simp [hnil, gainSeq, diff]
    · have hlen : 0 < closes.length := by
        cases closes with
        | nil => simp_all
        | cons a l => simp
      rw [gainSeq_getD closes 0 hlen]
      simp
  · rcases List.eq_nil_or_concat closes with hnil | _
    · simp [hnil, lossSeq, diff]
    · have hlen : 0 < closes.length := by
        cases closes with
        | nil => simp_all
        | cons a l => simp
      rw [lossSeq_getD closes 0 hlen]
      simp
  · intro t ht0 htl
    rw [gainSeq_getD closes t htl, if_neg (by omega)]
  · intro t ht0 htl
    rw [lossSeq_getD closes t htl, if_neg (by omega)]

theorem C4_rsi_pipeline_amended_witness :
    (calculate_rsi [1, 2, 3] 2).getD 0 none = none ∧
    (calculate_rsi [1, 2, 3] 2).getD 1 none = some 100 := by
  have h0 := (C4_rsi_pipeline_amended [1, 2, 3] 2 0 (by norm_num) (by norm_num)).1
    (by norm_num)
  have h1 := (C4_rsi_pipeline_amended [1, 2, 3] 2 1 (by norm_num) (by norm_num)).2.1
    (by norm_num)
  refine ⟨h0, ?_⟩
  rw [h1]
  norm_num [avgGain, avgLoss, gainSeq, lossSeq, diff, gainFill, lossFill, rsiStep,
    Finset.sum_range_succ, List.range_succ, List.getD_cons_succ, List.getD_cons_zero]

/-- C7: at every index where the rolling gain/loss averages are defined, an
`avgLoss` of zero with positive `avgGain` yields an RSI of exactly 100
(`RS = +∞`), and `avgGain = avgLoss = 0` yields an undefined value (the
`0/0` ratio), produced as an undefined marker in the output series rather
than by raising. -/
theorem C7_rsi_degenerate (closes : List ℚ) (p i : ℕ) (hp : 0 < p)
    (hi : i < closes.length) (hwin : p ≤ i + 1) :
    (avgLoss closes p i = 0 → 0 < avgGain closes p i →
      (calculate_rsi closes p).getD i none = some 100) ∧
    (avgGain closes p i = 0 → avgLoss closes p i = 0 →
      (calculate_rsi closes p).getD i none = none) := by
  have h := rsi_getD closes p i hp hi
  rw [if_pos hwin] at h
  constructor
  · intro hl hg
    rw [h, rsiStep, if_pos hl, if_neg hg.ne']
  · intro hg hl
    rw [h, rsiStep, if_pos hl, if_pos hg]

theorem C7_rsi_degenerate_witness :
    (calculate_rsi [1, 2, 3] 2).getD 2 none = some 100 ∧
    (calculate_rsi [5, 5, 5] 2).getD 2 none = none := by
  constructor
  · refine (C7_rsi_degenerate [1, 2, 3] 2 2 (by norm_num) (by norm_num) (by norm_num)).1
      ?_ ?_
    · norm_num [avgLoss, lossSeq, diff, lossFill, Finset.sum_range_succ, List.range_succ,
        List.getD_cons_succ, List.getD_cons_zero]
    · norm_num [avgGain, gainSeq, diff, gainFill, Finset.sum_range_succ, List.range_succ,
        List.getD_cons_succ, List.getD_cons_zero]
  · refine (C7_rsi_degenerate [5, 5, 5] 2 2 (by norm_num) (by norm_num) (by norm_num)).2
      ?_ ?_
    · norm_num [avgGain, gainSeq, diff, gainFill, Finset.sum_range_succ, List.range_succ,
        List.getD_cons_succ, List.getD_cons_zero]
    · norm_num [avgLoss, lossSeq, diff, lossFill, Finset.sum_range_succ, List.range_succ,
        List.getD_cons_succ, List.getD_cons_zero]

/-- Final recommendation of the synthesis section. -/
inductive Action
  | buy
  | sell
  | hold
deriving DecidableEq

/-- Displayed classification of a single indicator state. -/
inductive Direction
  | bullish
  | bearish
  | neutral
deriving DecidableEq

/-- `a > b` where `b` is a possibly-`NaN` float: a comparison against `NaN`
is false. -/
def gtQO (a : ℚ) (b : Option ℚ) : Bool :=
  match b with
  | some y => decide (y < a)
  | none => false

/-- `a < b` where `b` is a possibly-`NaN` float. -/
def ltQO (a : ℚ) (b : Option ℚ) : Bool :=
  match b with
  | some y => decide (a < y)
  | none => false

/-- `a > b` where both operands may be `NaN`. -/
def gtOO (a b : Option ℚ) : Bool :=
  match a, b with
  | some x, some y => decide (y < x)
  | _, _ => false

/-- `a < b` where both operands may be `NaN`. -/
def ltOO (a b : Option ℚ) : Bool :=
  match a, b with
  | some x, some y => decide (x < y)
  | _, _ => false

/-- `a > b` where `a` is a possibly-`NaN` float. -/
def gtOQ (a : Option ℚ) (b : ℚ) : Bool :=
  match a with
  | some x => decide (b < x)
  | none => false

/-- `a < b` where `a` is a possibly-`NaN` float. -/
def ltOQ (a : Option ℚ) (b : ℚ) : Bool :=
  match a with
  | some x => decide (x < b)
  | none => false

/-- Inputs of the synthesis section of `main` in `streamlit_sp500_demo.py`:
the enabled-indicator checkboxes and the latest value of each indicator
series (the `iloc[-1]` reads, `NaN` as `none`). -/
structure AggIn where
  showMA : Bool
  showRSI : Bool
  showMACD : Bool
  showBollinger : Bool
  price : ℚ
  ma50 : Option ℚ
  ma200 : Option ℚ
  rsiLatest : Option ℚ
  macdLatest : Option ℚ
  signalLatest : Option ℚ
  upperLatest : Option ℚ
  lowerLatest : Option ℚ

/-- MA contribution to the synthesis scores: `prix_actuel > dernier_ma50 >
dernier_ma200` adds 2 positive, the reversed strict chain adds 2 negative,
anything else (including `NaN` moving averages, which fail both chained
comparisons) adds 1 to each score. -/
def maContrib (inp : AggIn) : ℕ × ℕ :=
  if inp.showMA then
    if gtQO inp.price inp.ma50 && gtOO inp.ma50 inp.ma200 then (2, 0)
    else if ltQO inp.price inp.ma50 && ltOO inp.ma50 inp.ma200 then (0, 2)
    else (1, 1)
  else (0, 0)

/-- RSI contribution: `rsi_actuel > 70` adds 1 negative, `rsi_actuel < 30`
adds 1 positive, otherwise (including `NaN`) nothing. -/
def rsiContrib (inp : AggIn) : ℕ × ℕ :=
  if inp.showRSI then
    if gtOQ inp.rsiLatest 70 then (0, 1)
    else if ltOQ inp.rsiLatest 30 then (1, 0)
    else (0, 0)
  else (0, 0)

/-- MACD contribution: `macd_line.iloc[-1] > signal_line.iloc[-1]` adds 1
positive, otherwise (including `NaN`, which compares false) 1 negative. -/
def macdContrib (inp : AggIn) : ℕ × ℕ :=
  if inp.showMACD then
    if gtOO inp.macdLatest inp.signalLatest then (1, 0) else (0, 1)
  else (0, 0)

/-- `(signaux_positifs, signaux_negatifs)` of the synthesis section: the MA,
RSI and MACD contributions accumulated in source order. The Bollinger section
of `main` displays its classification but adds to neither counter. -/
def codeScores (inp : AggIn) : ℕ × ℕ :=
  ((maContrib inp).1 + (rsiContrib inp).1 + (macdContrib inp).1,
   (maContrib inp).2 + (rsiContrib inp).2 + (macdContrib inp).2)

/-- The synthesis conclusion: `signaux_positifs > signaux_negatifs` is the
bullish (Buy) conclusion, the reverse the bearish (Sell) one, a tie the
neutral (Hold) one. -/
def codeAction (inp : AggIn) : Action :=
  if (codeScores inp).2 < (codeScores inp).1 then Action.buy
  else if (codeScores inp).1 < (codeScores inp).2 then Action.sell
  else Action.hold

/-- Displayed Bollinger classification (`show_bollinger` branch of `main`):
price above the upper band is the overbought (bearish) message, below the
lower band the oversold (bullish) one, anything else (including `NaN`
bands) the neutral one. -/
def bollingerState (price : ℚ) (upper lower : Option ℚ) : Direction :=
  if gtQO price upper then Direction.bearish
  else if ltQO price lower then Direction.bullish
  else Direction.neutral

/-- Modelled from the spec (§4.6): MA state weights. -/
def specMAState (price fast slow : ℚ) : ℕ × ℕ :=
  if fast < price ∧ slow < fast then (2, 0)
  else if price < fast ∧ fast < slow then (0, 2)
  else (1, 1)

/-- Modelled from the spec (§4.6): RSI state weights. -/
def specRSIState (r : ℚ) : ℕ × ℕ :=
  if 70 < r then (0, 1) else if r < 30 then (1, 0) else (0, 0)

/-- Modelled from the spec (§4.6): MACD state weights. -/
def specMACDState (m s : ℚ) : ℕ × ℕ :=
  if s < m then (1, 0) else (0, 1)

/-- Modelled from the spec (§4.6): Bollinger state weights. -/
def specBollState (price u l : ℚ) : ℕ × ℕ :=
  if u < price then (0, 1) else if price < l then (1, 0) else (0, 0)

/-- Modelled from the spec (§4.6): the aggregator's score pair over the MA,
RSI and MACD rules. -/
def specScores (showMA showRSI showMACD : Bool) (price fast slow r m s : ℚ) : ℕ × ℕ :=
  let a := if showMA then specMAState price fast slow else (0, 0)
  let b := if showRSI then specRSIState r else (0, 0)
  let c := if showMACD then specMACDState m s else (0, 0)
  (a.1 + b.1 + c.1, a.2 + b.2 + c.2)

/-- Modelled from the spec (§4.6, C5): the aggregator's score pair with the
Bollinger rule included in the scoring, as the spec prescribes. -/
def specScoresB (showMA showRSI showMACD showBoll : Bool)
    (price fast slow r m s u l : ℚ) : ℕ × ℕ :=
  let base := specScores showMA showRSI showMACD price fast slow r m s
  let d := if showBoll then specBollState price u l else (0, 0)
  (base.1 + d.1, base.2 + d.2)

/-- Aggregator input with only the MA indicator enabled (the claim's
scenarios). -/
def maOnly (p f s : ℚ) : AggIn :=
  ⟨true, false, false, false, p, some f, some s, none, none, none, none, none⟩

theorem maContrib_some (inp : AggIn) (f s : ℚ) (hf : inp.ma50 = some f)
    (hs : inp.ma200 = some s) :
    maContrib inp = if inp.showMA then specMAState inp.price f s else (0, 0) := by
  simp only [maContrib, specMAState, gtQO, ltQO, gtOO, ltOO, hf, hs,
    Bool.and_eq_true, decide_eq_true_eq]

theorem rsiContrib_some (inp : AggIn) (r : ℚ) (hr : inp.rsiLatest = some r) :
    rsiContrib inp = if inp.showRSI then specRSIState r else (0, 0) := by
  simp only [rsiContrib, specRSIState, gtOQ, ltOQ, hr, decide_eq_true_eq]

theorem macdContrib_some (inp : AggIn) (m sg : ℚ) (hm : inp.macdLatest = some m)
    (hsg : inp.signalLatest = some sg) :
    macdContrib inp = if inp.showMACD then specMACDState m sg else (0, 0) := by
  simp only [macdContrib, specMACDState, gtOO, hm, hsg, decide_eq_true_eq]

/-- C2: with every enabled latest value defined, the synthesis scores follow
exactly the fixed MA/RSI/MACD weight rules, the conclusion is Buy iff the
positive score strictly exceeds the negative one, Sell iff the reverse, Hold
iff they tie; and on the claim's three only-MA scenarios the outputs are
Buy with scores (2,0), Sell, and Hold with scores (1,1). -/
theorem C2_aggregator_rules (inp : AggIn) (f s r m sg : ℚ)
    (hf : inp.ma50 = some f) (hs : inp.ma200 = some s) (hr : inp.rsiLatest = some r)
    (hm : inp.macdLatest = some m) (hsg : inp.signalLatest = some sg) :
    codeScores inp = specScores inp.showMA inp.showRSI inp.showMACD inp.price f s r m sg ∧
    (codeAction inp = Action.buy ↔ (codeScores inp).2 < (codeScores inp).1) ∧
    (codeAction inp = Action.sell ↔ (codeScores inp).1 < (codeScores inp).2) ∧
    (codeAction inp = Action.hold ↔ (codeScores inp).1 = (codeScores inp).2) ∧
    codeScores (maOnly 110 105 100) = (2, 0) ∧
    codeAction (maOnly 110 105 100) = Action.buy ∧
    codeAction (maOnly 90 95 100) = Action.sell ∧
    codeScores (maOnly 100 105 95) = (1, 1) ∧
    codeAction (maOnly 100 105 95) = Action.hold := by
  refine ⟨?_, ?_, ?_, ?_, ?_, ?_, ?_, ?_, ?_⟩
  · rw [codeScores, maContrib_some inp f s hf hs, rsiContrib_some inp r hr,
      macdContrib_some inp m sg hm hsg, specScores]
  · unfold codeAction
    split_ifs with h1 h2
    · exact iff_of_true rfl h1
    · exact iff_of_false (by decide) h1
    · exact iff_of_false (by decide) h1
  · unfold codeAction
    split_ifs with h1 h2
    · exact iff_of_false (by decide) (by omega)
    · exact iff_of_true rfl h2
    · exact iff_of_false (by decide) h2
  · unfold codeAction
    split_ifs with h1 h2
    · exact iff_of_false (by decide) (by omega)
    · exact iff_of_false (by decide) (by omega)
    · exact iff_of_true rfl (by omega)
  · norm_num [codeScores, maContrib, rsiContrib, macdContrib, maOnly,
      gtQO, ltQO, gtOO, ltOO, gtOQ, ltOQ]
  · norm_num [codeAction, codeScores, maContrib, rsiContrib, macdContrib, maOnly,
      gtQO, ltQO, gtOO, ltOO, gtOQ, ltOQ]
  · norm_num [codeAction, codeScores, maContrib, rsiContrib, macdContrib, maOnly,
      gtQO, ltQO, gtOO, ltOO, gtOQ, ltOQ]
  · norm_num [codeScores, maContrib, rsiContrib, macdContrib, maOnly,
      gtQO, ltQO, gtOO, ltOO, gtOQ, ltOQ]
  · norm_num [codeAction, codeScores, maContrib, rsiContrib, macdContrib, maOnly,
      gtQO, ltQO, gtOO, ltOO, gtOQ, ltOQ]

theorem C2_aggregator_rules_witness :
    codeScores (maOnly 110 105 100) = (2, 0) ∧
    codeAction (maOnly 110 105 100) = Action.buy := by
  have h := C2_aggregator_rules
    ⟨true, true, true, false, 110, some 105, some 100, some 50, some 2, some 1, none, none⟩
    105 100 50 2 1 rfl rfl rfl rfl rfl
  exact ⟨h.2.2.2.2.1, h.2.2.2.2.2.1⟩

/-- C6 counterexample: the claim asserts that an enabled indicator with an
undefined latest value contributes 0 to both scores, but with only MA enabled
and undefined moving averages (series shorter than the windows) both chained
comparisons are false, the source falls into the mixed branch, and the
contribution is (1, 1), not (0, 0). -/
theorem C6_undefined_ma_counterexample :
    codeScores ⟨true, false, false, false, 100, none, none, none, none, none,
        none, none⟩ = (1, 1) ∧
    ((1, 1) : ℕ × ℕ) ≠ (0, 0) := by
  constructor
  · norm_num [codeScores, maContrib, rsiContrib, macdContrib, gtQO, ltQO, gtOO, ltOO,
      gtOQ, ltOQ]
  · decide

/-- C6 (amended): the synthesis scores decompose into independent per-
indicator contributions, so the remaining indicators are always still scored;
an enabled RSI with undefined latest value does contribute (0, 0), but an
enabled MA pair with an undefined moving average falls into the mixed branch
and contributes (1, 1), and an enabled MACD with an undefined operand falls
into the bearish branch and contributes (0, 1): only the RSI indicator is
truly omitted when undefined. -/
theorem C6_undefined_latest_amended (inp : AggIn) :
    codeScores inp = ((maContrib inp).1 + (rsiContrib inp).1 + (macdContrib inp).1,
      (maContrib inp).2 + (rsiContrib inp).2 + (macdContrib inp).2) ∧
    (inp.showRSI = true → inp.rsiLatest = none → rsiContrib inp = (0, 0)) ∧
    (inp.showMA = true → inp.ma50 = none ∨ inp.ma200 = none → maContrib inp = (1, 1)) ∧
    (inp.showMACD = true → inp.macdLatest = none ∨ inp.signalLatest = none →
      macdContrib inp = (0, 1)) ∧
    (inp.showRSI = false → rsiContrib inp = (0, 0)) ∧
    (inp.showMA = false → maContrib inp = (0, 0)) ∧
    (inp.showMACD = false → macdContrib inp = (0, 0)) := by
  refine ⟨rfl, ?_, ?_, ?_, ?_, ?_, ?_⟩
  · intro hshow hnone
    simp [rsiContrib, gtOQ, ltOQ, hshow, hnone]
  · intro hshow hnone
    rcases hnone with h50 | h200
    · simp [maContrib, gtQO, ltQO, gtOO, ltOO, hshow, h50]
    · cases h5 : inp.ma50 <;>
        simp [maContrib, gtQO, ltQO, gtOO, ltOO, hshow, h200, h5]
  · intro hshow hnone
    rcases hnone with hmac | hsig
    · simp [macdContrib, gtOO, hshow, hmac]
    · cases hm : inp.macdLatest <;> simp [macdContrib, gtOO, hshow, hsig, hm]
  · intro hshow
    simp [rsiContrib, hshow]
  · intro hshow
    simp [maContrib, hshow]
  · intro hshow
    simp [macdContrib, hshow]

theorem C6_undefined_latest_amended_witness :
    codeScores ⟨true, true, true, false, 100, none, none, none, some 2, some 1,
      none, none⟩ = (2, 1) := by
  have h := C6_undefined_latest_amended
    ⟨true, true, true, false, 100, none, none, none, some 2, some 1, none, none⟩
  rw [h.1, h.2.1 rfl rfl, h.2.2.1 rfl (Or.inl rfl)]
  norm_num [macdContrib, gtOO]

/-- C5 counterexample: with only the Bollinger indicator enabled and the
price strictly above the defined upper band, the spec's aggregation rule
requires a Bearish weight 1 in the negative score (so scores (0, 1)), but
the source's synthesis scores never read the Bollinger state and stay
(0, 0), with conclusion Hold. -/
theorem C5_bollinger_unscored_counterexample :
    codeScores ⟨false, false, false, true, 10, none, none, none, none, none,
        some 5, some 1⟩ = (0, 0) ∧
    codeAction ⟨false, false, false, true, 10, none, none, none, none, none,
        some 5, some 1⟩ = Action.hold ∧
    specScoresB false false false true 10 0 0 0 0 0 5 1 = (0, 1) ∧
    ((0, 0) : ℕ × ℕ) ≠ (0, 1) := by
  refine ⟨?_, ?_, ?_, by decide⟩
  · norm_num [codeScores, maContrib, rsiContrib, macdContrib]
  · norm_num [codeAction, codeScores, maContrib, rsiContrib, macdContrib]
  · norm_num [specScoresB, specScores, specBollState, specMAState, specRSIState,
      specMACDState]

/-- C5 (amended): the source classifies the latest Bollinger state by the
spec's rules (price above the defined upper band is Bearish, below the
defined lower band Bullish, else Neutral) but only to display it; that
classification carries no weight into the positive/negative scores or the
final action, which are computed from the MA, RSI and MACD contributions
only and are invariant under every Bollinger input. -/
theorem C5_bollinger_display_amended :
    (∀ p u l : ℚ, bollingerState p (some u) (some l) =
      (if u < p then Direction.bearish
       else if p < l then Direction.bullish
       else Direction.neutral)) ∧
    (∀ (inp : AggIn) (sb : Bool) (u l : Option ℚ),
      codeScores { inp with showBollinger := sb, upperLatest := u, lowerLatest := l } =
        codeScores inp ∧
      codeAction { inp with showBollinger := sb, upperLatest := u, lowerLatest := l } =
        codeAction inp) := by
  constructor
  · intro p u l
    simp [bollingerState, gtQO, ltQO]
  · intro inp sb u l
    rcases inp with ⟨a, b, c, d, p, m5, m2, r, mc, sg, ub, lb⟩
    exact ⟨rfl, rfl⟩

/-- A date at which both moving averages are defined (a row of `data_clean`
in `detecter_croisements_ma`). -/
structure MPoint where
  date : ℕ
  fast : ℚ
  slow : ℚ
deriving DecidableEq

/-- Restriction of `(date, MA50, MA200)` rows to those where both averages
are defined (the `dropna` step on the moving-average columns). -/
def cleanRows (rows : List (ℕ × Option ℚ × Option ℚ)) : List MPoint :=
  rows.filterMap fun r =>
    match r.2.1, r.2.2 with
    | some f, some s => some ⟨r.1, f, s⟩
    | _, _ => none

/-- Golden-cross transition condition: `prev_ma50 <= prev_ma200 and
curr_ma50 > curr_ma200`. -/
def goldenP (p c : MPoint) : Prop := p.fast ≤ p.slow ∧ c.slow < c.fast

/-- Death-cross transition condition: `prev_ma50 >= prev_ma200 and
curr_ma50 < curr_ma200`. -/
def deathP (p c : MPoint) : Prop := p.slow ≤ p.fast ∧ c.fast < c.slow

instance (p c : MPoint) : Decidable (goldenP p c) := by unfold goldenP; infer_instance

instance (p c : MPoint) : Decidable (deathP p c) := by unfold deathP; infer_instance

/-- The `for i in range(1, len(data_clean))` loop of
`detecter_croisements_ma`: walk consecutive clean pairs, appending the
current date to the golden list on a golden-cross transition, `elif` to the
death list on a death-cross transition. -/
def crossLoop : MPoint → List MPoint → List ℕ × List ℕ
  | _, [] => ([], [])
  | prev, curr :: rest =>
    let res := crossLoop curr rest
    if goldenP prev curr then (curr.date :: res.1, res.2)
    else if deathP prev curr then (res.1, curr.date :: res.2)
    else res

/-- Crossover detection of `detecter_croisements_ma` on the aligned pair of
moving-average series: restrict to the clean rows, return empty lists when
fewer than 2 remain, otherwise walk consecutive pairs from the second clean
point on. -/
def detectCore (rows : List (ℕ × Option ℚ × Option ℚ)) : List ℕ × List ℕ :=
  if (cleanRows rows).length < 2 then ([], [])
  else
    match cleanRows rows with
    | [] => ([], [])
    | p :: rest => crossLoop p rest

/-- The consecutive pairs `(prev, curr)` of a list. -/
def adjPairs (l : List MPoint) : List (MPoint × MPoint) := l.zip l.tail

theorem golden_death_exclusive (p c : MPoint) : ¬(goldenP p c ∧ deathP p c) := by
  rintro ⟨⟨_, h1⟩, ⟨_, h2⟩⟩
  exact absurd h1 (by linarith)

theorem crossLoop_eq (rest : List MPoint) : ∀ p : MPoint,
    (crossLoop p rest).1 = ((adjPairs (p :: rest)).filter
      (fun pc => decide (goldenP pc.1 pc.2))).map (fun pc => pc.2.date) ∧
    (crossLoop p rest).2 = ((adjPairs (p :: rest)).filter
      (fun pc => decide (deathP pc.1 pc.2))).map (fun pc => pc.2.date) := by
  induction rest with
  | nil => intro p; simp [crossLoop, adjPairs]
  | cons c rest2 ih =>
    intro p
    have hpair : adjPairs (p :: c :: rest2) = (p, c) :: adjPairs (c :: rest2) := by
      simp [adjPairs]
    by_cases hg : goldenP p c
    · have hd : ¬deathP p c := fun hd => golden_death_exclusive p c ⟨hg, hd⟩
      constructor
      · rw [hpair]
        simp only [crossLoop, if_pos hg, List.filter_cons, decide_eq_true hg]
        simp [(ih c).1]
      · rw [hpair]
        simp only [crossLoop, if_pos hg, List.filter_cons]
        simp [hd, (ih c).2]
    · by_cases hd : deathP p c
      · constructor
        · rw [hpair]
          simp only [crossLoop, if_neg hg, if_pos hd, List.filter_cons]
          simp [hg, (ih c).1]
        · rw [hpair]
          simp only [crossLoop, if_neg hg, if_pos hd, List.filter_cons]
          simp [hd, (ih c).2]
      · constructor
        · rw [hpair]
          simp only [crossLoop, if_neg hg, if_neg hd, List.filter_cons]
          simp [hg, (ih c).1]
        · rw [hpair]
          simp only [crossLoop, if_neg hg, if_neg hd, List.filter_cons]
          simp [hd, (ih c).2]

/-- The detector's outputs are the filtered consecutive clean pairs, with or
without the fewer-than-2-points guard. -/
theorem detectCore_eq (rows : List (ℕ × Option ℚ × Option ℚ)) :
    (detectCore rows).1 = ((adjPairs (cleanRows rows)).filter
      (fun pc => decide (goldenP pc.1 pc.2))).map (fun pc => pc.2.date) ∧
    (detectCore rows).2 = ((adjPairs (cleanRows rows)).filter
      (fun pc => decide (deathP pc.1 pc.2))).map (fun pc => pc.2.date) := by
  by_cases hlen : (cleanRows rows).length < 2
  · have hdet : detectCore rows = ([], []) := by
      unfold detectCore
      rw [if_pos hlen]
    rcases hcl : cleanRows rows with _ | ⟨p, rest⟩
    · simp [hdet, adjPairs]
    · rcases rest with _ | ⟨q, rest2⟩
      · simp [hdet, adjPairs, hcl]
      · rw [hcl] at hlen
        simp only [List.length_cons] at hlen
        omega
  · rcases hcl : cleanRows rows with _ | ⟨p, rest⟩
    · rw [hcl] at hlen
      simp at hlen
    · have hlen2 : ¬((p :: rest).length < 2) := by
        rw [hcl] at hlen
        exact hlen
      have hdet : detectCore rows = crossLoop p rest := by
        unfold detectCore
        rw [hcl, if_neg hlen2]
      constructor
      · rw [hdet]
        exact (crossLoop_eq rest p).1
      · rw [hdet]
        exact (crossLoop_eq rest p).2

theorem adjPairs_map_snd : ∀ l : List MPoint, (adjPairs l).map Prod.snd = l.tail := by
  intro l
  induction l with
  | nil => rfl
  | cons x t ih =>
    cases t with
    | nil => rfl
    | cons y t2 =>
      have h : adjPairs (x :: y :: t2) = (x, y) :: adjPairs (y :: t2) := by
        simp [adjPairs]
      rw [h, List.map_cons, ih]
      rfl

theorem cleanRows_dates_sublist (rows : List (ℕ × Option ℚ × Option ℚ)) :
    ((cleanRows rows).map (fun c => c.date)).Sublist (rows.map (fun r => r.1)) := by
  induction rows with
  | nil => simp [cleanRows]
  | cons r t ih =>
    rcases r with ⟨d, f, s⟩
    rcases f with _ | fv <;> rcases s with _ | sv <;>
        simp only [cleanRows, List.filterMap_cons, List.map_cons]
    · exact ih.cons d
    · exact ih.cons d
    · exact ih.cons d
    · exact List.cons_sublist_cons.mpr ih

theorem map_snd_date (l : List (MPoint × MPoint)) :
    l.map (fun pc => pc.2.date) = (l.map Prod.snd).map (fun c => c.date) := by
  rw [List.map_map]
  rfl

theorem golden_tail_sublist (rows : List (ℕ × Option ℚ × Option ℚ)) :
    (detectCore rows).1.Sublist ((cleanRows rows).tail.map (fun c => c.date)) := by
  rw [(detectCore_eq rows).1, map_snd_date]
  have h1 := (List.filter_sublist (l := adjPairs (cleanRows rows))
    (p := fun pc => decide (goldenP pc.1 pc.2))).map Prod.snd
  rw [adjPairs_map_snd] at h1
  exact h1.map (fun c => c.date)

theorem death_tail_sublist (rows : List (ℕ × Option ℚ × Option ℚ)) :
    (detectCore rows).2.Sublist ((cleanRows rows).tail.map (fun c => c.date)) := by
  rw [(detectCore_eq rows).2, map_snd_date]
  have h1 := (List.filter_sublist (l := adjPairs (cleanRows rows))
    (p := fun pc => decide (deathP pc.1 pc.2))).map Prod.snd
  rw [adjPairs_map_snd] at h1
  exact h1.map (fun c => c.date)

/-- C3: `detecter_croisements_ma`'s detection loop restricts to the clean
rows where both moving averages are defined, returns empty results when
fewer than 2 clean points remain, and otherwise its golden (resp. death)
list consists exactly of the current dates of the consecutive clean pairs
satisfying `prev.fast ≤ prev.slow ∧ curr.fast > curr.slow` (resp. the
reversed condition); the two conditions exclude each other on any single
transition, for chronologically sorted input both event lists are sorted
and contain no event at the first clean point, and on a pair of series that
cross upward exactly once the result is exactly one golden cross at the
crossing date and no death cross. -/
theorem C3_crossover_detector (rows : List (ℕ × Option ℚ × Option ℚ)) :
    ((cleanRows rows).length < 2 → detectCore rows = ([], [])) ∧
    (detectCore rows).1 = ((adjPairs (cleanRows rows)).filter
      (fun pc => decide (goldenP pc.1 pc.2))).map (fun pc => pc.2.date) ∧
    (detectCore rows).2 = ((adjPairs (cleanRows rows)).filter
      (fun pc => decide (deathP pc.1 pc.2))).map (fun pc => pc.2.date) ∧
    (∀ p c : MPoint, ¬(goldenP p c ∧ deathP p c)) ∧
    (List.Sorted (· < ·) (rows.map (fun r => r.1)) →
      List.Sorted (· < ·) (detectCore rows).1 ∧
      List.Sorted (· < ·) (detectCore rows).2 ∧
      (∀ h : cleanRows rows ≠ [],
        ((cleanRows rows).head h).date ∉ (detectCore rows).1 ∧
        ((cleanRows rows).head h).date ∉ (detectCore rows).2)) ∧
    detectCore [(0, some 1, some 2), (1, some 3, some 2)] = ([1], []) := by
  refine ⟨?_, (detectCore_eq rows).1, (detectCore_eq rows).2, golden_death_exclusive, ?_, ?_⟩
  · intro hlen
    unfold detectCore
    rw [if_pos hlen]
  · intro hsorted
    have hclean : List.Sorted (· < ·) ((cleanRows rows).map (fun c => c.date)) :=
      List.Pairwise.sublist (cleanRows_dates_sublist rows) hsorted
    have htail : ((cleanRows rows).tail.map (fun c => c.date)).Sublist
        ((cleanRows rows).map (fun c => c.date)) :=
      (List.tail_sublist (cleanRows rows)).map (fun c => c.date)
    refine ⟨List.Pairwise.sublist ((golden_tail_sublist rows).trans htail) hclean,
      List.Pairwise.sublist ((death_tail_sublist rows).trans htail) hclean, ?_⟩
    intro h
    have hdecomp : (cleanRows rows).map (fun c => c.date) =
        ((cleanRows rows).head h).date :: (cleanRows rows).tail.map (fun c => c.date) := by
      conv_lhs => rw [← List.head_cons_tail (cleanRows rows) h]
      rw [List.map_cons]
    rw [hdecomp] at hclean
    have hlt := (List.pairwise_cons.mp hclean).1
    constructor
    · intro hmem
      have := hlt _ ((golden_tail_sublist rows).subset hmem)
      exact lt_irrefl _ this
    · intro hmem
      have := hlt _ ((death_tail_sublist rows).subset hmem)
      exact lt_irrefl _ this
  · norm_num [detectCore, cleanRows, crossLoop, adjPairs, goldenP, deathP,
      List.filterMap]

theorem C3_crossover_detector_witness :
    detectCore [((0 : ℕ), some (5 : ℚ), some (3 : ℚ))] = ([], []) ∧
    detectCore [(0, some 1, some 2), (1, some 3, some 2)] = ([1], []) ∧
    List.Sorted (· < ·) (detectCore [((0 : ℕ), some (1 : ℚ), some (2 : ℚ)),
      (1, some 3, some 2)]).1 := by
  refine ⟨?_, ?_, ?_⟩
  · refine (C3_crossover_detector [((0 : ℕ), some (5 : ℚ), some (3 : ℚ))]).1 ?_
    norm_num [cleanRows, List.filterMap]
  · exact (C3_crossover_detector []).2.2.2.2.2
  · refine ((C3_crossover_detector [((0 : ℕ), some (1 : ℚ), some (2 : ℚ)),
      (1, some 3, some 2)]).2.2.2.2.1 ?_).1
    simp

/-- One bar of the provider's history as consumed by `get_data` in
`app.py` (the fields the modelled outputs read). -/
structure BarRow where
  date : ℕ
  close : ℚ
  volume : ℚ
deriving DecidableEq

/-- `DataFrame.tail(n)`: the last `n` elements. -/
def lastN {α : Type} (n : ℕ) (l : List α) : List α := l.drop (l.length - n)

/-- The JSON payload built by `get_data` in `app.py` (the numeric fields;
the string-formatted display metrics built from the same quantities are
presentation and omitted). -/
structure DataResponse where
  prix_actuel : ℚ
  variation : ℚ
  dates : List ℕ
  prices : List ℚ
  volumes : List ℚ
  ma_dates : List ℕ
  ma_prices : List ℚ
  ma20 : List ℚ
  ma50 : List ℚ
  nb_jours : ℕ
deriving DecidableEq

/-- `get_data` from `app.py`: reject (error payload, modelled as `none`) iff
the provider returned an empty history; otherwise compute MA20/MA50 columns,
take the last 100 rows, drop those where a moving average is undefined
(`tail(100).dropna()`), and serialize. No ordering or duplicate-date check
is performed. -/
def get_data (bars : List BarRow) : Option DataResponse :=
  if bars.isEmpty then none
  else
    let closes := bars.map (fun b => b.close)
    let dates := bars.map (fun b => b.date)
    let ma20col := rollingMean closes 20
    let ma50col := rollingMean closes 50
    let cleanIdx := (lastN 100 (List.range bars.length)).filter (fun i =>
      (ma20col.getD i none).isSome && (ma50col.getD i none).isSome)
    let prix_actuel := closes.getD (bars.length - 1) 0
    let prix_precedent :=
      if 1 < bars.length then closes.getD (bars.length - 2) 0 else prix_actuel
    some
      { prix_actuel := prix_actuel
        variation := (prix_actuel - prix_precedent) / prix_precedent * 100
        dates := dates
        prices := closes
        volumes := bars.map (fun b => b.volume)
        ma_dates := cleanIdx.map (fun i => dates.getD i 0)
        ma_prices := cleanIdx.map (fun i => closes.getD i 0)
        ma20 := cleanIdx.map (fun i => (ma20col.getD i none).getD 0)
        ma50 := cleanIdx.map (fun i => (ma50col.getD i none).getD 0)
        nb_jours := bars.length }

/-- C9 counterexample: on a duplicate-dated two-bar history the claim
requires the computation to be rejected before producing results, but
`get_data` performs no ordering or duplicate-date validation: it returns a
full payload (prices, metrics, moving-average columns) for that input. -/
theorem C9_no_order_validation_counterexample :
    get_data [⟨0, 10, 100⟩, ⟨0, 11, 100⟩] ≠ none ∧
    Option.map (fun r => r.prices) (get_data [⟨0, 10, 100⟩, ⟨0, 11, 100⟩]) =
      some [10, 11] ∧
    Option.map (fun r => r.nb_jours) (get_data [⟨0, 10, 100⟩, ⟨0, 11, 100⟩]) =
      some 2 := by
  refine ⟨?_, ?_, ?_⟩ <;>
    norm_num [get_data, lastN, rollingMean, rollingMeanO, List.range_succ] <;>
    simp

/-- C9 (amended): the only input validation `get_data` performs is the
emptiness check: the computation is rejected iff the provider returned zero
bars, and for every non-empty series — ordered or not, duplicate-dated or
not — a payload is produced whose series fields echo the input as-is. -/
theorem C9_empty_only_validation_amended (bars : List BarRow) :
    (get_data bars = none ↔ bars = []) ∧
    (bars ≠ [] →
      Option.map (fun r => r.nb_jours) (get_data bars) = some bars.length ∧
      Option.map (fun r => r.prices) (get_data bars) =
        some (bars.map (fun b => b.close)) ∧
      Option.map (fun r => r.dates) (get_data bars) =
        some (bars.map (fun b => b.date))) := by
  by_cases h : bars = []
  · subst h
    simp [get_data]
  · have hne : bars.isEmpty = false := by
      simpa [List.isEmpty_iff] using h
    refine ⟨?_, fun _ => ⟨?_, ?_, ?_⟩⟩ <;> simp [get_data, hne, h]

theorem C9_empty_only_validation_amended_witness :
    Option.map (fun r => r.nb_jours) (get_data [⟨3, 7, 2⟩]) = some 1 :=
  ((C9_empty_only_validation_amended [⟨3, 7, 2⟩]).2 (by simp)).1

/-- A pandas DataFrame as passed to `detecter_croisements_ma`: a date index
and named float columns (`NaN` as `none`). -/
structure DFrame where
  dates : List ℕ
  cols : List (String × List (Option ℚ))
deriving DecidableEq

/-- Column lookup (first binding wins, as in a pandas frame where names are
unique). -/
def colLookup : List (String × List (Option ℚ)) → String → Option (List (Option ℚ))
  | [], _ => none
  | (m, c) :: rest, n => if m = n then some c else colLookup rest n

/-- `df[name] = values`: overwrite the existing column in place or append a
new one at the end, as pandas column assignment does. -/
def colUpdate : List (String × List (Option ℚ)) → String → List (Option ℚ) →
    List (String × List (Option ℚ))
  | [], n, v => [(n, v)]
  | (m, c) :: rest, n, v =>
    if m = n then (n, v) :: rest else (m, c) :: colUpdate rest n v

def getCol (df : DFrame) (n : String) : List (Option ℚ) :=
  (colLookup df.cols n).getD []

def setCol (df : DFrame) (n : String) (v : List (Option ℚ)) : DFrame :=
  ⟨df.dates, colUpdate df.cols n v⟩

/-- `dropna` row predicate: every column entry at row `i` is defined. -/
def rowClean (cols : List (String × List (Option ℚ))) (i : ℕ) : Bool :=
  cols.all fun c => ((c.2.getD i none).isSome : Bool)

/-- `detecter_croisements_ma` from `streamlit_sp500_demo.py`, with the
caller's DataFrame passed by reference: the function assigns the `MA50` and
`MA200` columns on it (`data['MA50'] = ...`), drops the rows holding any
`NaN` (`data.dropna()`), runs the crossover loop on the clean rows, and
returns the two event lists; the second component is the caller's frame
after the call. -/
def detecter_croisements_ma (df : DFrame) : (List ℕ × List ℕ) × DFrame :=
  let ma50 := rollingMeanO (getCol df "Close") 50
  let ma200 := rollingMeanO (getCol df "Close") 200
  let df2 := setCol (setCol df "MA50" ma50) "MA200" ma200
  let rows := (List.range df2.dates.length).filterMap fun i =>
    if rowClean df2.cols i then
      some (df2.dates.getD i 0, (getCol df2 "MA50").getD i none,
        (getCol df2 "MA200").getD i none)
    else none
  (detectCore rows, df2)

theorem colLookup_colUpdate (n : String) (v : List (Option ℚ)) (m : String) :
    ∀ cols, colLookup (colUpdate cols n v) m =
      if m = n then some v else colLookup cols m := by
  intro cols
  induction cols with
  | nil =>
    simp only [colUpdate, colLookup]
    by_cases h : m = n
    · subst h
      simp
    · rw [if_neg (fun hh => h hh.symm), if_neg h]
  | cons hd rest ih =>
    rcases hd with ⟨m2, c⟩
    simp only [colUpdate]
    by_cases h1 : m2 = n
    · rw [if_pos h1]
      subst h1
      simp only [colLookup]
      by_cases h2 : m = m2
      · subst h2
        rw [if_pos rfl, if_pos rfl]
      · rw [if_neg (fun hh => h2 hh.symm), if_neg h2, if_neg (fun hh => h2 hh.symm)]
    · rw [if_neg h1]
      simp only [colLookup, ih]
      by_cases h2 : m2 = m
      · rw [if_pos h2]
        by_cases h3 : m = n
        · exact absurd (h2.trans h3) h1
        · rw [if_neg h3, if_pos h2]
      · rw [if_neg h2]
        by_cases h3 : m = n
        · rw [if_pos h3, if_pos h3]
        · rw [if_neg h3, if_neg h3, if_neg h2]

/-- C10 counterexample: the claim asserts `detectCrossovers` leaves the
caller's frame — including its set of columns — unchanged, but on a
two-row frame holding only a `Close` column the function has assigned
`MA50` and `MA200` columns to the caller's frame, which therefore differs
from its pre-call value. -/
theorem C10_detect_mutates_counterexample :
    (detecter_croisements_ma ⟨[0, 1], [("Close", [some 1, some 2])]⟩).2 ≠
      (⟨[0, 1], [("Close", [some 1, some 2])]⟩ : DFrame) ∧
    colLookup ((detecter_croisements_ma
      ⟨[0, 1], [("Close", [some 1, some 2])]⟩).2).cols "MA50" ≠ none ∧
    colLookup [("Close", [some (1 : ℚ), some 2])] "MA50" = none := by
  refine ⟨by decide, by decide, by rfl⟩

/-- C10 (amended): `detecter_croisements_ma` does mutate the caller's frame,
but only by assigning the `MA50` and `MA200` columns computed from the
`Close` column: the date index and every other column — in particular every
bar field of the input series — are left unchanged. -/
theorem C10_frame_effects_amended (df : DFrame) :
    ((detecter_croisements_ma df).2).dates = df.dates ∧
    (∀ n : String, n ≠ "MA50" → n ≠ "MA200" →
      colLookup ((detecter_croisements_ma df).2).cols n = colLookup df.cols n) ∧
    colLookup ((detecter_croisements_ma df).2).cols "MA50" =
      some (rollingMeanO (getCol df "Close") 50) ∧
    colLookup ((detecter_croisements_ma df).2).cols "MA200" =
      some (rollingMeanO (getCol df "Close") 200) := by
  refine ⟨rfl, ?_, ?_, ?_⟩
  · intro n h50 h200
    simp only [detecter_croisements_ma, setCol]
    rw [colLookup_colUpdate, if_neg h200, colLookup_colUpdate, if_neg h50]
  · simp only [detecter_croisements_ma, setCol]
    rw [colLookup_colUpdate, if_neg (by decide), colLookup_colUpdate, if_pos rfl]
  · simp only [detecter_croisements_ma, setCol]
    rw [colLookup_colUpdate, if_pos rfl]

theorem C10_frame_effects_amended_witness :
    colLookup ((detecter_croisements_ma
      ⟨[0, 1], [("Close", [some 1, some 2])]⟩).2).cols "Close" =
      colLookup [("Close", [some (1 : ℚ), some 2])] "Close" :=
  (C10_frame_effects_amended ⟨[0, 1], [("Close", [some 1, some 2])]⟩).2.1 "Close"
    (by decide) (by decide)

end SP500
